import Mathlib

/-!
Shallow embedding of the packfile transform engine in `src/p.py`.

Byte strings are modelled as `List Nat`; the `io.BytesIO` read cursor is
modelled by passing the unread remainder of the list along.  The external
black-box collaborators (zlib compression, the UTF-8 text codec and the
SHA-1 digest, see spec sections 1 and 6) are parameters of the embedding;
concrete toy instances mirroring the observable behaviour of the real
libraries are provided for evaluation.
-/

/-- Index of the first occurrence of `pat` in `l` (Python `bytes.find` /
`str.find`), `none` when absent. -/
def findSubIdx {α : Type} [DecidableEq α] (pat : List α) : List α → Option Nat
  | [] => if pat = [] then some 0 else none
  | a :: rest =>
    if pat.isPrefixOf (a :: rest) then some 0
    else (findSubIdx pat rest).map (· + 1)

/-- Python substring test (`pat in l`). -/
def containsSub {α : Type} [DecidableEq α] (pat : List α) (l : List α) : Bool :=
  (findSubIdx pat l).isSome

/-- The 4-byte container marker, the ASCII bytes of PACK. -/
def PACKbytes : List Nat := [80, 65, 67, 75]

/-- Model of `struct.unpack(">I", stream.read(4))`: reads 4 bytes big-endian;
`none` models the `struct.error` raised when fewer than 4 bytes remain. -/
def read_u32 : List Nat → Option (Nat × List Nat)
  | a :: b :: c :: d :: rest => some (((a * 256 + b) * 256 + c) * 256 + d, rest)
  | _ => none

/-- Model of `struct.pack(">I", v)`. -/
def u32_bytes (v : Nat) : List Nat :=
  [v / 16777216 % 256, v / 65536 % 256, v / 256 % 256, v % 256]

/-- Continuation loop of `parse_object_header` (src/p.py lines 87-91):
`prev` is the byte last read, `size`/`shift` the accumulator state.
`none` models the `TypeError` raised by `ord` on an empty read when the
stream ends mid-sequence. -/
def parse_size (prev size shift : Nat) : List Nat → Option (Nat × List Nat)
  | [] => if prev &&& 128 = 0 then some (size, []) else none
  | b :: rest =>
    if prev &&& 128 = 0 then some (size, b :: rest)
    else parse_size b (size ||| ((b &&& 127) <<< shift)) (shift + 7) rest

/-- `parse_object_header` (src/p.py lines 79-93): decodes the varint
type+size header, returning the decoded pair and the unread remainder. -/
def parse_object_header : List Nat → Option ((Nat × Nat) × List Nat)
  | [] => none
  | b :: rest =>
    (parse_size b (b &&& 15) 4 rest).map (fun p => (((b >>> 4) &&& 7, p.1), p.2))

/-- Emission loop of `write_object_header` (src/p.py lines 133-139).  The
loop is fuel-indexed to stay structurally recursive; `size` shrinks by a
factor 128 per step, so any `fuel ≥ size` reproduces the Python `while`
loop exactly (the fuel-0 case coincides with the loop whenever it is
reachable, i.e. when `size = 0`). -/
def write_size_loop : Nat → Nat → Nat → List Nat
  | 0, header, _ => [header]
  | fuel + 1, header, size =>
    if size = 0 then [header]
    else (header ||| 128) :: write_size_loop fuel (size &&& 127) (size >>> 7)

/-- `write_object_header` (src/p.py lines 126-139): returns the emitted
header bytes. -/
def write_object_header (object_type size : Nat) : List Nat :=
  write_size_loop size ((object_type <<< 4) ||| (size &&& 15)) (size >>> 4)

/-- Fuel-indexed scan implementing Python `str.replace` (left-to-right,
non-overlapping).  Any `fuel ≥ s.length` reproduces `replace` exactly. -/
def pyReplaceAux (old new : List Char) : Nat → List Char → List Char
  | _, [] => []
  | 0, s => s
  | fuel + 1, c :: rest =>
    if old.isPrefixOf (c :: rest) then
      new ++ pyReplaceAux old new fuel (rest.drop (old.length - 1))
    else
      c :: pyReplaceAux old new fuel rest

/-- Python `s.replace(old, new)` for nonempty `old`. -/
def pyReplace (old new s : List Char) : List Char :=
  pyReplaceAux old new s.length s

/-- Fuel-indexed count of the occurrences `str.replace` would substitute
(left-to-right, non-overlapping). -/
def countOccAux (pat : List Char) : Nat → List Char → Nat
  | _, [] => 0
  | 0, _ => 0
  | fuel + 1, c :: rest =>
    if pat.isPrefixOf (c :: rest) then
      1 + countOccAux pat fuel (rest.drop (pat.length - 1))
    else
      countOccAux pat fuel rest

/-- Number of occurrences of `pat` substituted by a left-to-right
non-overlapping scan of `s`. -/
def countOcc (pat s : List Char) : Nat :=
  countOccAux pat s.length s

/-- The guard literal `"Commit: "` tested by `modify_commit_object`. -/
def COMMITP : List Char := "Commit: ".data

/-- The replacement target literal. -/
def TARGET : List Char := "Commit: GitHub <noreply@github.com>".data

/-- `modify_commit_object` (src/p.py lines 116-123) on the decoded text of
a commit payload: if `"Commit: "` occurs, replace every occurrence of the
target literal with `"Commit: " ++ new_commit_field`. -/
def modify_commit_object (object_data new_commit_field : List Char) : List Char :=
  if containsSub COMMITP object_data then
    pyReplace TARGET (COMMITP ++ new_commit_field) object_data
  else object_data

/-- Abstract model of the zlib collaborator (spec section 6: a black-box
stream compression service).  `dfeed` models `decompressobj().decompress`
on one chunk (`none` = `zlib.error`); `decompress` models the one-shot
`zlib.decompress` (`none` = `zlib.error`); `compress` models
`zlib.compress`. -/
structure ZlibModel (σ : Type) where
  dinit : σ
  dfeed : σ → List Nat → Option σ
  decompress : List Nat → Option (List Nat)
  compress : List Nat → List Nat

/-- Chunk loop of `decompress_object` (src/p.py lines 103-111): read up to
8192 bytes, append them to the accumulator, feed them to the decompressor,
stop on end of stream or on `zlib.error`.  Fuel-indexed (one unit per
chunk, each chunk consumes at least one byte), so any `fuel ≥ stream.length`
reproduces the Python `while True` loop; the fuel-0 case coincides with
the loop whenever it is reachable (empty stream). -/
def decompress_object_loop {σ : Type} (Z : ZlibModel σ) :
    Nat → σ → List Nat → List Nat → List Nat × List Nat
  | 0, _, acc, stream => (acc, stream)
  | fuel + 1, st, acc, stream =>
    let chunk := stream.take 8192
    if chunk.isEmpty then (acc, stream)
    else
      match Z.dfeed st chunk with
      | some st2 => decompress_object_loop Z fuel st2 (acc ++ chunk) (stream.drop 8192)
      | none => (acc ++ chunk, stream.drop 8192)

/-- `decompress_object` (src/p.py lines 96-113): returns the bytes it
consumed as the compressed data together with the unread remainder of the
stream. -/
def decompress_object {σ : Type} (Z : ZlibModel σ) (stream : List Nat) :
    List Nat × List Nat :=
  decompress_object_loop Z stream.length Z.dinit [] stream

/-- Abstract model of the UTF-8 text codec used on commit payloads:
`decode?` models `bytes.decode("utf-8")` (`none` = `UnicodeDecodeError`),
`encode` models `str.encode("utf-8")`. -/
structure Utf8Model where
  decode? : List Nat → Option (List Char)
  encode : List Char → List Nat

/-- Error kinds surfaced by `parse_and_modify_push_request`:
`MarkerNotFound` = `ValueError("PACK section not found...")` (line 25),
`InvalidMagic` = `ValueError("Invalid PACK file format")` (line 38),
`StructError` = `struct.error` from a short 4-byte read (lines 44-45),
`HeaderError` = `TypeError` from `ord` on an empty read (lines 83, 89),
`ZlibError` = `zlib.error` from `zlib.decompress` (line 55),
`EncodingError` = `UnicodeDecodeError` (line 120). -/
inductive PErr where
  | MarkerNotFound
  | InvalidMagic
  | StructError
  | HeaderError
  | ZlibError
  | EncodingError
deriving DecidableEq, Repr

/-- The object loop of `parse_and_modify_push_request` (src/p.py lines
52-66): runs once per declared object, returning the output accumulator
and the unread remainder of the packfile stream. -/
def processObjects {σ : Type} (Z : ZlibModel σ) (U : Utf8Model) (r : List Char) :
    Nat → List Nat → List Nat → Except PErr (List Nat × List Nat)
  | 0, stream, out => .ok (out, stream)
  | n + 1, stream, out =>
    match parse_object_header stream with
    | none => .error .HeaderError
    | some ((object_type, _object_size), s1) =>
      let scanned := decompress_object Z s1
      match Z.decompress scanned.1 with
      | none => .error .ZlibError
      | some object_data =>
        if object_type = 1 then
          match U.decode? object_data with
          | none => .error .EncodingError
          | some text =>
            let od := U.encode (modify_commit_object text r)
            processObjects Z U r n scanned.2
              (out ++ write_object_header object_type od.length ++ Z.compress od)
        else
          processObjects Z U r n scanned.2
            (out ++ write_object_header object_type object_data.length ++
              Z.compress object_data)

/-- `parse_and_modify_push_request` (src/p.py lines 6-76), from the decoded
request bytes to the rebuilt request bytes (the outer base64 transport
framing is out of scope per spec section 1).  `sha1` is the black-box
20-byte digest service of `calculate_checksum` (lines 142-147). -/
def parse_and_modify_push_request {σ : Type} (Z : ZlibModel σ) (U : Utf8Model)
    (sha1 : List Nat → List Nat) (binary_data : List Nat)
    (new_commit_field : List Char) : Except PErr (List Nat) :=
  match findSubIdx PACKbytes binary_data with
  | none => .error .MarkerNotFound
  | some pack_start =>
    let metadata := binary_data.take pack_start
    let packfile_data := binary_data.drop pack_start
    if packfile_data.take 4 = PACKbytes then
      match read_u32 (packfile_data.drop 4) with
      | none => .error .StructError
      | some (version, s1) =>
        match read_u32 s1 with
        | none => .error .StructError
        | some (num_objects, s2) =>
          match processObjects Z U new_commit_field num_objects s2
              (PACKbytes ++ u32_bytes version ++ u32_bytes num_objects) with
          | .error e => .error e
          | .ok res => .ok (metadata ++ res.1 ++ sha1 res.1)
    else .error .InvalidMagic

/-- Decompressor state of the toy compression codec: expecting a tag byte,
expecting a literal byte, or past end of stream. -/
inductive ToyState where
  | expectTag
  | expectByte
  | finished
deriving DecidableEq, Repr

/-- Toy incremental decompressor mirroring the observable behaviour of
`zlib.decompressobj().decompress`: a byte-escaped stream terminated by tag
1; corrupt data raises, while data past end of stream is accepted silently
(the real object stores it in `unused_data` without error). -/
def toyFeed : ToyState → List Nat → Option ToyState
  | st, [] => some st
  | .finished, _ :: rest => toyFeed .finished rest
  | .expectTag, b :: rest =>
    if b = 0 then toyFeed .expectByte rest
    else if b = 1 then toyFeed .finished rest
    else none
  | .expectByte, _ :: rest => toyFeed .expectTag rest

/-- Toy one-shot decompression mirroring `zlib.decompress`: decodes one
complete stream and silently ignores trailing bytes (as the real function
does), failing on corrupt or truncated data. -/
def toyDecomp : List Nat → Option (List Nat)
  | 1 :: _ => some []
  | 0 :: b :: rest => (toyDecomp rest).map (fun p => b :: p)
  | _ => none

/-- Toy compression: escape every payload byte with tag 0 and terminate
with tag 1. -/
def toyCompress : List Nat → List Nat
  | [] => [1]
  | b :: rest => 0 :: b :: toyCompress rest

/-- Concrete instance of the zlib collaborator model used to evaluate the
code on explicit inputs. -/
def ToyZlib : ZlibModel ToyState :=
  { dinit := .expectTag
    dfeed := toyFeed
    decompress := toyDecomp
    compress := toyCompress }

/-- Concrete instance of the text codec model (ASCII fragment of UTF-8). -/
def ToyUtf8 : Utf8Model :=
  { decode? := fun l => if l.all (· < 128) then some (l.map Char.ofNat) else none
    encode := fun s => s.map Char.toNat }

/-- Concrete instance of the 20-byte digest service. -/
def H0 (l : List Nat) : List Nat := List.replicate 20 (l.length % 256)

/-- Observation of whether a transform result is the `InvalidMagic`
failure (`ValueError("Invalid PACK file format")`, src/p.py line 38). -/
def resultIsInvalidMagic : Except PErr (List Nat) → Bool
  | .error .InvalidMagic => true
  | _ => false

/-- A decoded push request with one byte of ref-update metadata before the
marker, then a container with version 2 and one blob object whose toy
compressed stream is the 3 bytes after the header byte 49. -/
def sampleInput : List Nat := [7, 80, 65, 67, 75, 0, 0, 0, 2, 0, 0, 0, 1, 49, 0, 5, 1]

/-- The output the transform produces on `sampleInput` with the toy
collaborators: metadata byte, rebuilt 16-byte container, then the `H0`
digest of the 16 container bytes. -/
def sampleOutput : List Nat :=
  [7, 80, 65, 67, 75, 0, 0, 0, 2, 0, 0, 0, 1, 49, 0, 5, 1] ++ List.replicate 20 16

/-- Decidable equality for transform results, used to evaluate the codec on
concrete inputs. -/
instance {ε α : Type} [DecidableEq ε] [DecidableEq α] : DecidableEq (Except ε α) :=
  fun a b =>
    match a, b with
    | .ok x, .ok y =>
      if h : x = y then .isTrue (by rw [h]) else .isFalse (fun hc => h (Except.ok.inj hc))
    | .error e, .error f =>
      if h : e = f then .isTrue (by rw [h]) else .isFalse (fun hc => h (Except.error.inj hc))
    | .ok _, .error _ => .isFalse (fun hc => Except.noConfusion hc)
    | .error _, .ok _ => .isFalse (fun hc => Except.noConfusion hc)

theorem and_15_eq_mod (x : Nat) : x &&& 15 = x % 16 := by
  have h := Nat.and_pow_two_sub_one_eq_mod x 4
  norm_num at h
  exact h

theorem and_127_eq_mod (x : Nat) : x &&& 127 = x % 128 := by
  have h := Nat.and_pow_two_sub_one_eq_mod x 7
  norm_num at h
  exact h

theorem and_7_eq_mod (x : Nat) : x &&& 7 = x % 8 := by
  have h := Nat.and_pow_two_sub_one_eq_mod x 3
  norm_num at h
  exact h

theorem shiftRight_4 (x : Nat) : x >>> 4 = x / 16 := by
  have h := Nat.shiftRight_eq_div_pow x 4
  norm_num at h
  exact h

theorem shiftRight_7 (x : Nat) : x >>> 7 = x / 128 := by
  have h := Nat.shiftRight_eq_div_pow x 7
  norm_num at h
  exact h

theorem and_128_eq_zero_of_lt {g : Nat} (h : g < 128) : g &&& 128 = 0 := by
  apply Nat.eq_of_testBit_eq
  intro i
  simp only [Nat.testBit_and, Nat.zero_testBit]
  rcases eq_or_ne 7 i with rfl | hne
  · have : g < 2 ^ 7 := by norm_num; omega
    simp [Nat.testBit_lt_two_pow this]
  · have h2 : Nat.testBit 128 i = false := by
      have : (128 : Nat) = 2 ^ 7 := by norm_num
      rw [this]
      exact Nat.testBit_two_pow_of_ne hne
    simp [h2]

theorem or_128_and_128_ne_zero (x : Nat) : (x ||| 128) &&& 128 ≠ 0 := by
  intro h
  have h7 := congrArg (fun n => n.testBit 7) h
  have h128 : Nat.testBit 128 7 = true := by decide
  simp [Nat.testBit_and, Nat.testBit_or, h128] at h7

theorem or_128_and_127 (x : Nat) : (x ||| 128) &&& 127 = x &&& 127 := by
  rw [Nat.and_distrib_right]
  have : (128 : Nat) &&& 127 = 0 := by decide
  rw [this, Nat.or_zero]

theorem or_128_eq_add {x : Nat} (h : x < 128) : x ||| 128 = x + 128 := by
  have h2 : (2 : Nat) ^ 7 * 1 + x = 2 ^ 7 * 1 ||| x := Nat.mul_add_lt_is_or (by norm_num; omega) 1
  norm_num at h2
  rw [Nat.lor_comm, ← h2, Nat.add_comm]

theorem lor_shiftLeft_eq_add {a : Nat} (b k : Nat) (h : a < 2 ^ k) :
    a ||| (b <<< k) = a + b * 2 ^ k := by
  rw [Nat.shiftLeft_eq, Nat.lor_comm, Nat.mul_comm b, ← Nat.mul_add_lt_is_or h b]
  omega

theorem parse_size_done {prev : Nat} (size shift : Nat) (h : prev &&& 128 = 0)
    (s : List Nat) : parse_size prev size shift s = some (size, s) := by
  cases s <;> simp [parse_size, h]

theorem parse_size_step {prev : Nat} (size shift : Nat) (h : ¬ prev &&& 128 = 0)
    (b : Nat) (rest : List Nat) :
    parse_size prev size shift (b :: rest) =
      parse_size b (size ||| ((b &&& 127) <<< shift)) (shift + 7) rest := by
  simp [parse_size, h]

theorem write_size_loop_spec :
    ∀ (fuel g m size shift : Nat) (rest : List Nat) (prev : Nat),
    m ≤ fuel → g < 128 → ¬ prev &&& 128 = 0 → size < 2 ^ shift →
    parse_size prev size shift (write_size_loop fuel g m ++ rest) =
      some (size + (g + m * 128) * 2 ^ shift, rest) := by
  intro fuel
  induction fuel with
  | zero =>
    intro g m size shift rest prev hm hg hprev hsize
    have hm0 : m = 0 := by omega
    subst hm0
    rw [show write_size_loop 0 g 0 = [g] from rfl]
    rw [List.cons_append, List.nil_append]
    rw [parse_size_step size shift hprev g rest]
    rw [parse_size_done _ _ (and_128_eq_zero_of_lt hg) rest]
    congr 1
    rw [and_127_eq_mod, Nat.mod_eq_of_lt hg, lor_shiftLeft_eq_add g shift hsize]
    simp
  | succ fuel ih =>
    intro g m size shift rest prev hm hg hprev hsize
    by_cases hm0 : m = 0
    · subst hm0
      rw [show write_size_loop (fuel + 1) g 0 = [g] by simp [write_size_loop]]
      rw [List.cons_append, List.nil_append]
      rw [parse_size_step size shift hprev g rest]
      rw [parse_size_done _ _ (and_128_eq_zero_of_lt hg) rest]
      congr 1
      rw [and_127_eq_mod, Nat.mod_eq_of_lt hg, lor_shiftLeft_eq_add g shift hsize]
      simp
    · rw [show write_size_loop (fuel + 1) g m =
          (g ||| 128) :: write_size_loop fuel (m &&& 127) (m >>> 7) by
        simp [write_size_loop, hm0]]
      rw [List.cons_append]
      rw [parse_size_step size shift hprev (g ||| 128) _]
      rw [or_128_and_127, and_127_eq_mod, Nat.mod_eq_of_lt hg]
      rw [lor_shiftLeft_eq_add g shift hsize]
      rw [ih (m &&& 127) (m >>> 7) _ (shift + 7) rest (g ||| 128)
        (by rw [shiftRight_7]; omega)
        (by rw [and_127_eq_mod]; omega)
        (or_128_and_128_ne_zero g)
        (by
          have hp : (2 : Nat) ^ (shift + 7) = 2 ^ shift * 128 := by
            rw [pow_add]; norm_num
          rw [hp]
          have hpos : 0 < 2 ^ shift := Nat.two_pow_pos shift
          nlinarith [hpos, hsize, hg])]
      congr 1
      rw [and_127_eq_mod, shiftRight_7]
      have hp : (2 : Nat) ^ (shift + 7) = 2 ^ shift * 128 := by
        rw [pow_add]; norm_num
      rw [hp]
      have h2 : m % 128 + m / 128 * 128 = m := by omega
      rw [h2]
      ring_nf

theorem parse_object_header_cons (c : Nat) (l : List Nat) :
    parse_object_header (c :: l) =
      (parse_size c (c &&& 15) 4 l).map (fun p => (((c >>> 4) &&& 7, p.1), p.2)) := rfl

theorem parse_write_object_header (t s : Nat) (ht : t < 8) (rest : List Nat) :
    parse_object_header (write_object_header t s ++ rest) = some ((t, s), rest) := by
  unfold write_object_header
  have hb0eq : (t <<< 4) ||| (s &&& 15) = t * 16 + s % 16 := by
    rw [Nat.shiftLeft_eq, and_15_eq_mod]
    have h2 : (2 : Nat) ^ 4 * t + s % 16 = 2 ^ 4 * t ||| s % 16 :=
      Nat.mul_add_lt_is_or (by simp only [show (2:Nat)^4 = 16 from rfl]; omega) t
    norm_num at h2 ⊢
    rw [Nat.mul_comm] at h2
    omega
  have hb0lt : (t <<< 4) ||| (s &&& 15) < 128 := by
    rw [hb0eq]; omega
  by_cases h : s >>> 4 = 0
  · have hs : s < 16 := by rw [shiftRight_4] at h; omega
    have hw : write_size_loop s ((t <<< 4) ||| (s &&& 15)) (s >>> 4) =
        [(t <<< 4) ||| (s &&& 15)] := by
      cases s with
      | zero => rfl
      | succ n => simp [write_size_loop, h]
    rw [hw, List.cons_append, List.nil_append, parse_object_header_cons]
    rw [parse_size_done _ _ (and_128_eq_zero_of_lt hb0lt) rest]
    simp only [Option.map_some']
    have h1 : (((t <<< 4) ||| (s &&& 15)) >>> 4) &&& 7 = t := by
      rw [hb0eq, shiftRight_4, and_7_eq_mod]
      omega
    have h2 : ((t <<< 4) ||| (s &&& 15)) &&& 15 = s := by
      rw [hb0eq, and_15_eq_mod]
      omega
    rw [h1, h2]
  · have hs16 : 16 ≤ s := by rw [shiftRight_4] at h; omega
    obtain ⟨n, rfl⟩ : ∃ n, s = n + 1 := ⟨s - 1, by omega⟩
    have hceq : ((t <<< 4) ||| ((n + 1) &&& 15)) ||| 128 = t * 16 + (n + 1) % 16 + 128 := by
      rw [or_128_eq_add hb0lt, hb0eq]
    rw [show write_size_loop (n + 1) ((t <<< 4) ||| ((n + 1) &&& 15)) ((n + 1) >>> 4) =
        (((t <<< 4) ||| ((n + 1) &&& 15)) ||| 128) ::
          write_size_loop n (((n + 1) >>> 4) &&& 127) (((n + 1) >>> 4) >>> 7) by
      simp [write_size_loop, h]]
    rw [List.cons_append, parse_object_header_cons]
    rw [write_size_loop_spec n (((n + 1) >>> 4) &&& 127) (((n + 1) >>> 4) >>> 7)
      ((((t <<< 4) ||| ((n + 1) &&& 15)) ||| 128) &&& 15) 4 rest _
      (by rw [shiftRight_7, shiftRight_4]; omega)
      (by rw [and_127_eq_mod]; omega)
      (or_128_and_128_ne_zero _)
      (by rw [hceq, and_15_eq_mod]; norm_num; omega)]
    simp only [Option.map_some']
    have h1 : ((((t <<< 4) ||| ((n + 1) &&& 15)) ||| 128) >>> 4) &&& 7 = t := by
      rw [hceq, shiftRight_4, and_7_eq_mod]
      omega
    have h2 : ((((t <<< 4) ||| ((n + 1) &&& 15)) ||| 128) &&& 15) +
        ((((n + 1) >>> 4) &&& 127) + (((n + 1) >>> 4) >>> 7) * 128) * 2 ^ 4 = n + 1 := by
      rw [hceq, and_15_eq_mod, and_127_eq_mod, shiftRight_7, shiftRight_4]
      norm_num
      omega
    rw [h1, h2]

theorem decompress_object_loop_nil {σ : Type} (Z : ZlibModel σ) (fuel : Nat) (st : σ)
    (acc : List Nat) : decompress_object_loop Z fuel st acc [] = (acc, []) := by
  cases fuel <;> simp [decompress_object_loop]

theorem decompress_object_loop_small {σ : Type} (Z : ZlibModel σ) :
    ∀ (fuel : Nat) (st : σ) (acc s : List Nat), s ≠ [] → s.length ≤ 8192 → 1 ≤ fuel →
    decompress_object_loop Z fuel st acc s = (acc ++ s, []) := by
  intro fuel st acc s hne hlen hfuel
  obtain ⟨f, rfl⟩ : ∃ f, fuel = f + 1 := ⟨fuel - 1, by omega⟩
  have htake : s.take 8192 = s := List.take_of_length_le hlen
  have hdrop : s.drop 8192 = [] := List.drop_eq_nil_of_le hlen
  simp only [decompress_object_loop, htake, hdrop]
  rw [if_neg (by simpa [List.isEmpty_iff] using hne)]
  cases Z.dfeed st s with
  | some st2 => simp [decompress_object_loop_nil]
  | none => simp

theorem decompress_object_consumes_all {σ : Type} (Z : ZlibModel σ) (s : List Nat)
    (hne : s ≠ []) (hlen : s.length ≤ 8192) : decompress_object Z s = (s, []) := by
  unfold decompress_object
  rw [decompress_object_loop_small Z s.length Z.dinit [] s hne hlen
    (by cases s with | nil => exact absurd rfl hne | cons a t => simp)]
  simp

theorem containsSub_cons {α : Type} [DecidableEq α] (pat : List α) (c : α) (rest : List α) :
    containsSub pat (c :: rest) = (pat.isPrefixOf (c :: rest) || containsSub pat rest) := by
  by_cases h : pat.isPrefixOf (c :: rest)
  · simp [containsSub, findSubIdx, h]
  · simp [containsSub, findSubIdx, h]

theorem findSubIdx_drop_isPrefixOf {α : Type} [DecidableEq α] (pat : List α) :
    ∀ (s : List α) (i : Nat), findSubIdx pat s = some i → pat.isPrefixOf (s.drop i) = true := by
  intro s
  induction s with
  | nil =>
    intro i h
    by_cases hp : pat = []
    · subst hp
      simp
    · simp [findSubIdx, hp] at h
  | cons c rest ih =>
    intro i h
    by_cases hp : pat.isPrefixOf (c :: rest)
    · simp [findSubIdx, hp] at h
      subst h
      simpa using hp
    · simp [findSubIdx, hp] at h
      obtain ⟨j, hj, rfl⟩ := h
      rw [List.drop_succ_cons]
      exact ih j hj

theorem containsSub_of_drop_isPrefixOf {α : Type} [DecidableEq α] (pat : List α) :
    ∀ (s : List α) (i : Nat), pat.isPrefixOf (s.drop i) = true → containsSub pat s = true := by
  intro s
  induction s with
  | nil =>
    intro i h
    rw [List.drop_eq_nil_of_eq_nil rfl] at h
    have hp : pat = [] := by
      have := List.isPrefixOf_iff_prefix.mp h
      simpa using this
    simp [containsSub, findSubIdx, hp]
  | cons c rest ih =>
    intro i h
    rw [containsSub_cons]
    cases i with
    | zero =>
      rw [List.drop_zero] at h
      simp [h]
    | succ j =>
      rw [List.drop_succ_cons] at h
      simp [ih j h]

theorem findSubIdx_le_length {α : Type} [DecidableEq α] (pat : List α) :
    ∀ (s : List α) (i : Nat), findSubIdx pat s = some i → i ≤ s.length := by
  intro s
  induction s with
  | nil =>
    intro i h
    by_cases hp : pat = []
    · simp [findSubIdx, hp] at h
      omega
    · simp [findSubIdx, hp] at h
  | cons c rest ih =>
    intro i h
    by_cases hp : pat.isPrefixOf (c :: rest)
    · simp [findSubIdx, hp] at h
      omega
    · simp [findSubIdx, hp] at h
      obtain ⟨j, hj, rfl⟩ := h
      have := ih j hj
      simp
      omega

theorem isPrefixOf_take {α : Type} [DecidableEq α] {pat l : List α}
    (h : pat.isPrefixOf l = true) : l.take pat.length = pat := by
  obtain ⟨t, rfl⟩ := List.isPrefixOf_iff_prefix.mp h
  exact List.take_left pat t

theorem pyReplaceAux_of_not_contains (old new : List Char) :
    ∀ (fuel : Nat) (s : List Char), containsSub old s = false →
    pyReplaceAux old new fuel s = s := by
  intro fuel
  induction fuel with
  | zero =>
    intro s _
    cases s <;> rfl
  | succ f ih =>
    intro s h
    cases s with
    | nil => rfl
    | cons c rest =>
      rw [containsSub_cons] at h
      simp only [Bool.or_eq_false_iff] at h
      simp [pyReplaceAux, h.1, ih rest h.2]

theorem pyReplaceAux_of_count_zero (old new : List Char) :
    ∀ (fuel : Nat) (s : List Char), s.length ≤ fuel → countOccAux old fuel s = 0 →
    pyReplaceAux old new fuel s = s := by
  intro fuel
  induction fuel with
  | zero =>
    intro s hlen _
    cases s with
    | nil => rfl
    | cons c rest => simp at hlen
  | succ f ih =>
    intro s hlen hcnt
    cases s with
    | nil => rfl
    | cons c rest =>
      by_cases hp : old.isPrefixOf (c :: rest)
      · simp [countOccAux, hp] at hcnt
      · simp only [countOccAux, hp, if_false] at hcnt
        simp only [List.length_cons] at hlen
        simp [pyReplaceAux, hp, ih rest (by omega) hcnt]

theorem pyReplaceAux_single_occurrence (old new : List Char) (hne : old ≠ []) :
    ∀ (fuel : Nat) (s : List Char) (i : Nat), s.length ≤ fuel →
    countOccAux old fuel s = 1 → findSubIdx old s = some i →
    pyReplaceAux old new fuel s = s.take i ++ new ++ s.drop (i + old.length) := by
  intro fuel
  induction fuel with
  | zero =>
    intro s i hlen _ hfind
    cases s with
    | nil => simp [findSubIdx, hne] at hfind
    | cons c rest => simp at hlen
  | succ f ih =>
    intro s i hlen hcnt hfind
    cases s with
    | nil => simp [findSubIdx, hne] at hfind
    | cons c rest =>
      obtain ⟨k, hk⟩ : ∃ k, old.length = k + 1 :=
        ⟨old.length - 1, by cases old with | nil => exact absurd rfl hne | cons a t => simp⟩
      by_cases hp : old.isPrefixOf (c :: rest)
      · have hi : i = 0 := by simp [findSubIdx, hp] at hfind; omega
        subst hi
        simp only [countOccAux, hp, if_true] at hcnt
        have hcnt0 : countOccAux old f (rest.drop (old.length - 1)) = 0 := by omega
        simp only [pyReplaceAux, hp, if_true]
        rw [pyReplaceAux_of_count_zero old new f _
          (by simp only [List.length_drop, List.length_cons] at hlen ⊢; omega) hcnt0]
        rw [List.take_zero, List.nil_append, Nat.zero_add, hk, List.drop_succ_cons]
        simp [hk]
      · simp [findSubIdx, hp] at hfind
        obtain ⟨j, hj, rfl⟩ := hfind
        simp only [countOccAux, hp, if_false] at hcnt
        simp only [List.length_cons] at hlen
        simp only [pyReplaceAux, hp, if_false]
        rw [ih rest j (by omega) hcnt hj]
        have hd : (c :: rest).drop (j + 1 + old.length) = rest.drop (j + old.length) := by
          rw [show j + 1 + old.length = (j + old.length) + 1 by omega, List.drop_succ_cons]
        rw [hd]
        simp [List.take_succ_cons]

/-- Claim C4: for every object type in the 3-bit tag range and every size,
decoding the bytes produced by the object header encoder yields back exactly
the encoded pair and consumes exactly the emitted bytes (the following bytes
are returned untouched). -/
theorem object_header_roundtrip (t s : Nat) (rest : List Nat) (ht : t < 8) :
    parse_object_header (write_object_header t s ++ rest) = some ((t, s), rest) :=
  parse_write_object_header t s ht rest

/-- Witness for the C4 theorem at type 3, size 1000, trailing bytes [7, 7]. -/
theorem object_header_roundtrip_witness :
    3 < 8 ∧ parse_object_header (write_object_header 3 1000 ++ [7, 7]) = some ((3, 1000), [7, 7]) :=
  ⟨by decide, object_header_roundtrip 3 1000 [7, 7] (by decide)⟩

/-- Claim C6: on a commit payload that does not contain the target literal,
the rewriter returns the payload unchanged, with no error. -/
theorem rewrite_no_target_identity (s r : List Char) (h : containsSub TARGET s = false) :
    modify_commit_object s r = s := by
  unfold modify_commit_object
  by_cases hg : containsSub COMMITP s
  · rw [if_pos hg]
    unfold pyReplace
    exact pyReplaceAux_of_not_contains TARGET (COMMITP ++ r) s.length s h
  · rw [if_neg hg]

/-- Witness for the C6 theorem on a payload without the literal. -/
theorem rewrite_no_target_identity_witness :
    containsSub TARGET "tree abc".data = false ∧
    modify_commit_object "tree abc".data "Bob".data = "tree abc".data :=
  ⟨by decide, rewrite_no_target_identity "tree abc".data "Bob".data (by decide)⟩

/-- Claim C5 counterexample: on a payload consisting of the target literal
twice, the rewriter does not replace the literal exactly once leaving all
other bytes intact (it replaces both occurrences), so the claim as stated
fails at this input. -/
theorem rewrite_not_exactly_once_cex :
    findSubIdx TARGET (TARGET ++ TARGET) = some 0 ∧
    modify_commit_object (TARGET ++ TARGET) ['X'] ≠
      (TARGET ++ TARGET).take 0 ++ (COMMITP ++ ['X']) ++
        (TARGET ++ TARGET).drop (0 + TARGET.length) := by
  exact ⟨by decide, by decide⟩

/-- Claim C5 as amended: the rewriter substitutes every occurrence found by
a left-to-right non-overlapping scan; when that scan finds exactly one
occurrence, at position i, the literal is replaced exactly once and no byte
outside the replaced span changes. -/
theorem rewrite_single_occurrence_exact (s r : List Char) (i : Nat)
    (h1 : countOcc TARGET s = 1) (h2 : findSubIdx TARGET s = some i) :
    modify_commit_object s r =
      s.take i ++ (COMMITP ++ r) ++ s.drop (i + TARGET.length) := by
  have hguard : containsSub COMMITP s = true := by
    have hpre := findSubIdx_drop_isPrefixOf TARGET s i h2
    have hcp : COMMITP.isPrefixOf TARGET = true := by decide
    have htrans : COMMITP.isPrefixOf (s.drop i) = true := by
      rw [List.isPrefixOf_iff_prefix] at hpre hcp ⊢
      exact hcp.trans hpre
    exact containsSub_of_drop_isPrefixOf COMMITP s i htrans
  unfold modify_commit_object
  simp only [hguard, if_true]
  unfold pyReplace
  unfold countOcc at h1
  exact pyReplaceAux_single_occurrence TARGET (COMMITP ++ r) (by decide) s.length s i
    (Nat.le_refl _) h1 h2

/-- Witness for the amended C5 theorem on a payload with one occurrence. -/
theorem rewrite_single_occurrence_exact_witness :
    countOcc TARGET ("a".data ++ TARGET ++ "b".data) = 1 ∧
    findSubIdx TARGET ("a".data ++ TARGET ++ "b".data) = some 1 ∧
    modify_commit_object ("a".data ++ TARGET ++ "b".data) "Bob".data =
      ("a".data ++ TARGET ++ "b".data).take 1 ++ (COMMITP ++ "Bob".data) ++
        ("a".data ++ TARGET ++ "b".data).drop (1 + TARGET.length) :=
  ⟨by decide, by decide,
    rewrite_single_occurrence_exact ("a".data ++ TARGET ++ "b".data) "Bob".data 1
      (by decide) (by decide)⟩

/-- Claim C1 (code defect): on a stream holding two 3-byte compressed
objects, the scan consumes all 6 bytes instead of the 3 bytes of the first
object (whose complete compressed representation the decompressor accepts),
and parsing the next object header at the position after the consumed bytes
fails; boundary detection is not exact. -/
theorem boundary_scan_overconsumes :
    decompress_object ToyZlib [0, 5, 1, 0, 6, 1] = ([0, 5, 1, 0, 6, 1], []) ∧
    ToyZlib.decompress [0, 5, 1] = some [5] ∧
    (decompress_object ToyZlib [0, 5, 1, 0, 6, 1]).1.length ≠ 3 ∧
    parse_object_header (decompress_object ToyZlib [0, 5, 1, 0, 6, 1]).2 = none :=
  ⟨by decide, by decide, by decide, by decide⟩

/-- Claim C2 (code defect): a well-formed packfile declaring two objects,
each with a matching 3-byte compressed stream and a 20-byte trailer, makes
the codec fail while reading the second object header instead of processing
exactly the two declared records, because the first object scan consumed
the whole remaining buffer. -/
theorem object_loop_fails_on_two_objects :
    parse_and_modify_push_request ToyZlib ToyUtf8 H0
      ([80, 65, 67, 75, 0, 0, 0, 2, 0, 0, 0, 2, 49, 0, 5, 1, 49, 0, 6, 1] ++
        List.replicate 20 0) [] = .error .HeaderError := by
  decide

theorem parse_object_header_type_lt :
    ∀ (stream : List Nat) (t sz : Nat) (s1 : List Nat),
    parse_object_header stream = some ((t, sz), s1) → t < 8 := by
  intro stream t sz s1 h
  cases stream with
  | nil => simp [parse_object_header] at h
  | cons b rest =>
    rw [parse_object_header_cons] at h
    cases hps : parse_size b (b &&& 15) 4 rest with
    | none => rw [hps] at h; simp at h
    | some p =>
      rw [hps] at h
      simp only [Option.map_some', Option.some_inj] at h
      have ht : (b >>> 4) &&& 7 = t := by
        have := congrArg (fun q => q.1.1) h
        simpa using this
      rw [← ht, and_7_eq_mod]
      omega

theorem processObjects_err {σ : Type} (Z : ZlibModel σ) (U : Utf8Model) (r : List Char) :
    ∀ (n : Nat) (stream out : List Nat) (e : PErr),
    processObjects Z U r n stream out = .error e →
    e = .HeaderError ∨ e = .ZlibError ∨ e = .EncodingError := by
  intro n
  induction n with
  | zero =>
    intro stream out e h
    simp [processObjects] at h
  | succ n ih =>
    intro stream out e h
    simp only [processObjects] at h
    split at h
    · injection h with h1
      exact Or.inl h1.symm
    · split at h
      · injection h with h1
        exact Or.inr (Or.inl h1.symm)
      · split at h
        · split at h
          · injection h with h1
            exact Or.inr (Or.inr h1.symm)
          · exact ih _ _ _ h
        · exact ih _ _ _ h

theorem parse_result_cases {σ : Type} (Z : ZlibModel σ) (U : Utf8Model)
    (sha1 : List Nat → List Nat) (data : List Nat) (r : List Char) (j : Nat)
    (hfind : findSubIdx PACKbytes data = some j) :
    (∃ out, parse_and_modify_push_request Z U sha1 data r = .ok out ∧
      ∃ pk, out = data.take j ++ pk ++ sha1 pk) ∨
    (∃ e, parse_and_modify_push_request Z U sha1 data r = .error e ∧
      (e = .StructError ∨ e = .HeaderError ∨ e = .ZlibError ∨ e = .EncodingError)) := by
  have hmagic : (data.drop j).take 4 = PACKbytes := by
    have hpre := findSubIdx_drop_isPrefixOf PACKbytes data j hfind
    have h4 : PACKbytes.length = 4 := rfl
    rw [← h4]
    exact isPrefixOf_take hpre
  simp only [parse_and_modify_push_request, hfind]
  rw [if_pos hmagic]
  cases hr1 : read_u32 ((data.drop j).drop 4) with
  | none =>
    right
    exact ⟨.StructError, rfl, Or.inl rfl⟩
  | some p1 =>
    obtain ⟨version, s1⟩ := p1
    dsimp only
    cases hr2 : read_u32 s1 with
    | none =>
      right
      exact ⟨.StructError, rfl, Or.inl rfl⟩
    | some p2 =>
      obtain ⟨num_objects, s2⟩ := p2
      dsimp only
      cases hpo : processObjects Z U r num_objects s2
          (PACKbytes ++ u32_bytes version ++ u32_bytes num_objects) with
      | error e =>
        right
        exact ⟨e, rfl, Or.inr (processObjects_err Z U r _ _ _ _ hpo)⟩
      | ok res =>
        left
        exact ⟨data.take j ++ res.1 ++ sha1 res.1, rfl, res.1, rfl⟩


/-- Claim C7: for an object whose decoded type is not 1 (commit), the
transform stage is a no-op: the emitted record holds the recompressed input
payload itself, and the result does not involve the rewriter or the text
codec in any way. -/
theorem non_commit_passthrough {σ : Type} (Z : ZlibModel σ) (U : Utf8Model) (r : List Char)
    (stream out : List Nat) (t sz : Nat) (s1 p : List Nat)
    (hph : parse_object_header stream = some ((t, sz), s1)) (ht : t ≠ 1)
    (hdc : Z.decompress (decompress_object Z s1).1 = some p) :
    processObjects Z U r 1 stream out =
      .ok (out ++ write_object_header t p.length ++ Z.compress p,
        (decompress_object Z s1).2) := by
  simp [processObjects, hph, hdc, ht]

/-- Witness for the C7 theorem on a type-3 (blob) record. -/
theorem non_commit_passthrough_witness :
    processObjects ToyZlib ToyUtf8 ['A'] 1 [49, 0, 5, 1] [] =
      .ok ([] ++ write_object_header 3 [5].length ++ ToyZlib.compress [5],
        (decompress_object ToyZlib [0, 5, 1]).2) :=
  non_commit_passthrough ToyZlib ToyUtf8 ['A'] [49, 0, 5, 1] [] 3 1 [0, 5, 1] [5]
    (by decide) (by decide) (by decide)

/-- Claim C9: every successfully emitted record consists of a re-encoded
header followed by the recompressed payload, and the size field of that
header decodes to the exact length of the emitted payload; the declared
input size sz is unconstrained and never copied to the output. -/
theorem output_header_size_recomputed {σ : Type} (Z : ZlibModel σ) (U : Utf8Model)
    (r : List Char) (stream out : List Nat) (res : List Nat × List Nat)
    (h : processObjects Z U r 1 stream out = .ok res) :
    ∃ t sz s1 p, parse_object_header stream = some ((t, sz), s1) ∧
      res.1 = out ++ write_object_header t p.length ++ Z.compress p ∧
      parse_object_header (write_object_header t p.length ++ Z.compress p) =
        some ((t, p.length), Z.compress p) := by
  rcases hph : parse_object_header stream with _ | ⟨⟨t, sz⟩, s1⟩
  · simp [processObjects, hph] at h
  · have ht8 : t < 8 := parse_object_header_type_lt stream t sz s1 hph
    simp only [processObjects, hph] at h
    rcases hdc : Z.decompress (decompress_object Z s1).1 with _ | p0
    · rw [hdc] at h
      simp at h
    · rw [hdc] at h
      dsimp only at h
      by_cases ht1 : t = 1
      · rw [if_pos ht1] at h
        rcases hu : U.decode? p0 with _ | text
        · rw [hu] at h
          simp at h
        · rw [hu] at h
          dsimp only at h
          rw [Except.ok.injEq] at h
          exact ⟨t, sz, s1, U.encode (modify_commit_object text r), rfl,
            by rw [← h], parse_write_object_header t _ ht8 _⟩
      · rw [if_neg ht1] at h
        rw [Except.ok.injEq] at h
        exact ⟨t, sz, s1, p0, rfl, by rw [← h], parse_write_object_header t _ ht8 _⟩

/-- Witness for the C9 theorem: input declares size 9 for a length-1
payload, the step still succeeds and the output header records size 1. -/
theorem output_header_size_recomputed_witness :
    ∃ t sz s1 p, parse_object_header [57, 0, 5, 1] = some ((t, sz), s1) ∧
      ([49, 0, 5, 1], ([] : List Nat)).1 =
        [] ++ write_object_header t p.length ++ ToyZlib.compress p ∧
      parse_object_header (write_object_header t p.length ++ ToyZlib.compress p) =
        some ((t, p.length), ToyZlib.compress p) :=
  output_header_size_recomputed ToyZlib ToyUtf8 [] [57, 0, 5, 1] [] ([49, 0, 5, 1], [])
    (by decide)

/-- Claim C8: the transform fails with MarkerNotFound exactly when the
marker occurs nowhere in the decoded bytes, and on success every byte
before the first marker occurrence is passed through unchanged as the
prefix of the output. -/
theorem marker_found_iff_and_metadata_passthrough {σ : Type} (Z : ZlibModel σ)
    (U : Utf8Model) (sha1 : List Nat → List Nat) (data : List Nat) (r : List Char) :
    (parse_and_modify_push_request Z U sha1 data r = .error .MarkerNotFound ↔
      containsSub PACKbytes data = false) ∧
    (∀ i out, findSubIdx PACKbytes data = some i →
      parse_and_modify_push_request Z U sha1 data r = .ok out →
      out.take i = data.take i) := by
  cases hfind : findSubIdx PACKbytes data with
  | none =>
    constructor
    · constructor
      · intro _
        simp [containsSub, hfind]
      · intro _
        simp [parse_and_modify_push_request, hfind]
    · intro i out hi
      exact absurd hi (by simp)
  | some j =>
    have hcs : containsSub PACKbytes data = true := by simp [containsSub, hfind]
    constructor
    · constructor
      · intro h
        exfalso
        rcases parse_result_cases Z U sha1 data r j hfind with
          ⟨out, hok, _⟩ | ⟨e, herr, he⟩
        · rw [h] at hok
          exact absurd hok (by simp)
        · rw [h] at herr
          rcases he with rfl | rfl | rfl | rfl <;> simp at herr
      · intro h
        rw [hcs] at h
        exact absurd h (by simp)
    · intro i out hi hok
      injection hi with hi
      subst hi
      rcases parse_result_cases Z U sha1 data r j hfind with
        ⟨out2, hok2, pk, hshape⟩ | ⟨e, herr, _⟩
      · rw [hok] at hok2
        have hout : out = out2 := Except.ok.inj hok2
        subst hout
        rw [hshape, List.append_assoc]
        have hlen : (data.take j).length = j := by
          rw [List.length_take]
          have := findSubIdx_le_length PACKbytes data j hfind
          omega
        rw [List.take_left' hlen]
      · rw [hok] at herr
        exact absurd herr (by simp)

/-- Witness for the C8 theorem: a marker-free input fails with
MarkerNotFound, and a successful run preserves the one metadata byte. -/
theorem marker_found_iff_witness :
    parse_and_modify_push_request ToyZlib ToyUtf8 H0 [1, 2, 3] [] =
      .error .MarkerNotFound ∧
    sampleOutput.take 1 = sampleInput.take 1 :=
  ⟨(marker_found_iff_and_metadata_passthrough ToyZlib ToyUtf8 H0 [1, 2, 3] []).1.mpr
      (by decide),
    (marker_found_iff_and_metadata_passthrough ToyZlib ToyUtf8 H0 sampleInput []).2
      1 sampleOutput (by decide) (by decide)⟩

/-- Claim C10: the InvalidMagic branch is dead code: for every input, every
zlib model, text codec and digest, the transform never returns the
InvalidMagic error, because the four bytes at the located marker offset are
the marker itself. -/
theorem invalid_magic_unreachable {σ : Type} (Z : ZlibModel σ) (U : Utf8Model)
    (sha1 : List Nat → List Nat) (data : List Nat) (r : List Char) :
    resultIsInvalidMagic (parse_and_modify_push_request Z U sha1 data r) = false := by
  cases hfind : findSubIdx PACKbytes data with
  | none => simp [parse_and_modify_push_request, hfind, resultIsInvalidMagic]
  | some j =>
    rcases parse_result_cases Z U sha1 data r j hfind with
      ⟨out, hok, _⟩ | ⟨e, herr, he⟩
    · rw [hok]
      rfl
    · rw [herr]
      rcases he with rfl | rfl | rfl | rfl <;> rfl

/-- Claim C3 counterexample: on an input with one metadata byte before the
marker, the 20 trailer bytes of the successful output differ from the
digest of all output bytes preceding the trailer, because the code digests
only the rebuilt container and not the metadata prefix. -/
theorem trailer_digest_not_over_full_output_cex :
    parse_and_modify_push_request ToyZlib ToyUtf8 H0 sampleInput [] = .ok sampleOutput ∧
    sampleOutput.drop (sampleOutput.length - 20) ≠
      H0 (sampleOutput.take (sampleOutput.length - 20)) :=
  ⟨by decide, by decide⟩

/-- Claim C3 as amended: the trailer appended to a successful output is the
digest of exactly the rebuilt container bytes that precede it, which start
at the marker offset; the metadata prefix passed through before the
container is not part of the digest input. -/
theorem trailer_digest_over_container_bytes {σ : Type} (Z : ZlibModel σ) (U : Utf8Model)
    (sha1 : List Nat → List Nat) (data : List Nat) (r : List Char) (out : List Nat)
    (h : parse_and_modify_push_request Z U sha1 data r = .ok out) :
    ∃ i pk, findSubIdx PACKbytes data = some i ∧
      out = data.take i ++ (pk ++ sha1 pk) := by
  cases hfind : findSubIdx PACKbytes data with
  | none => simp [parse_and_modify_push_request, hfind] at h
  | some j =>
    rcases parse_result_cases Z U sha1 data r j hfind with
      ⟨out2, hok2, pk, hshape⟩ | ⟨e, herr, _⟩
    · rw [h] at hok2
      have hout : out = out2 := Except.ok.inj hok2
      subst hout
      exact ⟨j, pk, rfl, by rw [hshape, List.append_assoc]⟩
    · rw [h] at herr
      exact absurd herr (by simp)

/-- Witness for the amended C3 theorem on `sampleInput`. -/
theorem trailer_digest_over_container_bytes_witness :
    ∃ i pk, findSubIdx PACKbytes sampleInput = some i ∧
      sampleOutput = sampleInput.take i ++ (pk ++ H0 pk) :=
  trailer_digest_over_container_bytes ToyZlib ToyUtf8 H0 sampleInput [] sampleOutput
    (by decide)
